import Mathlib

/-!
Shallow embedding of the django-view-shortcuts library
(`view_shortcuts/filters.py` and `view_shortcuts/decorators.py`)
together with theorems settling the specification claims.

Modelling conventions:
* A Django queryset over a row type `α` is a pair of the full table of the
  model (`model.objects.all()`) and the currently selected rows; `filter`
  restricts the selected rows by a boolean predicate and `&` intersects
  row selections.
* An HTTP request is its GET mapping, a function `String → Option String`
  (`request.GET.get`); Python truthiness of the looked-up value
  (absent or empty string is falsy) is `isTruthy`.
* A Python string whose characters are inspected by the code is embedded
  as `List Char` (named `PyStr`); strings used only as opaque keys stay
  `String`.
* ORM lookup semantics (how `qs.filter(lookup=value)` matches a row) are
  external to this repository and are abstracted as predicate parameters.
-/

namespace ViewShortcuts

/-- Python string, embedded as its list of characters. -/
abbrev PyStr := List Char

/-- Python truthiness of `request.GET.get(param)`: `None` and the empty
string are falsy, every other string is truthy. -/
def isTruthy : Option String → Bool
  | none => false
  | some s => !(s == "")

/-- A facet descriptor: the ORM lookup path and the GET parameter name
(`facet.__init__` stores `lookup` and `param`; the filter kind, which does
not influence activation or values, is modelled separately). -/
structure Facet where
  lookup : String
  param : String
deriving DecidableEq, Repr

/-- The per-request data of one `Filter` instance that the `FilterList`
level code manipulates: parameter name, lookup, current value taken from
the request, and the active flag. -/
structure Filt where
  param : String
  lookup : String
  value : Option String
  active : Bool
deriving DecidableEq, Repr

/-- The `_generate_filters` loop of `FilterList.__init__`: one filter per
facet, reading `value = request.GET.get(param)`; a filter is active when
its value is truthy and, in single mode, no earlier filter has already
triggered (`single_triggered`). -/
def generateFilters (get : String → Option String) (single : Bool) :
    List Facet → Bool → List Filt
  | [], _ => []
  | p :: rest, trig =>
    let v := get p.param
    let act := isTruthy v && !trig
    let trig2 := trig || (single && act)
    ⟨p.param, p.lookup, v, act⟩ :: generateFilters get single rest trig2

/-- `FilterList.active`: in single mode the first active filter only
(as a singleton list), otherwise all active filters in order. -/
def activeFilters (single : Bool) (fs : List Filt) : List Filt :=
  if single then
    match fs.find? (fun f => f.active) with
    | some f => [f]
    | none => []
  else fs.filter (fun f => f.active)

/-- `FilterList.urlencode`, kept at the level of the encoded
`(param, value)` pairs of the active filters, in order.  Python would
render a `None` value as the string `"None"`. -/
def urlencodePairs (single : Bool) (fs : List Filt) : List (String × String) :=
  (activeFilters single fs).map (fun f => (f.param, f.value.getD "None"))

/-- Rebuilding a GET mapping from a list of query-string pairs;
Django `QueryDict.get` returns the last value for a repeated key. -/
def requestOfPairs (pairs : List (String × String)) : String → Option String :=
  fun q => ((pairs.filter (fun pr => pr.1 == q)).getLast?).map (fun pr => pr.2)

/-- A queryset: the full table of the model plus the selected rows. -/
structure QuerySet (α : Type) where
  all : List α
  rows : List α
deriving DecidableEq, Repr

/-- `qs.filter(...)` with the match condition abstracted as a predicate. -/
def QuerySet.filterBy {α : Type} (q : QuerySet α) (p : α → Bool) : QuerySet α :=
  ⟨q.all, q.rows.filter p⟩

/-- `qs1 & qs2`: intersection of the two row selections. -/
def QuerySet.qand {α : Type} [DecidableEq α] (q1 q2 : QuerySet α) : QuerySet α :=
  ⟨q1.all, q1.rows.filter (fun r => decide (r ∈ q2.rows))⟩

/-- The `FilterList` state relevant to queryset composition. -/
structure FilterListS (α : Type) where
  qs : QuerySet α
  single : Bool
  filters : List Filt

/-- `FilterList.clean_query`: a queryset built from scratch
(`self._qs.model.objects.all()`) with every active filter applied in
sequence.  `restrict f` is the row predicate of the subclass method
`f.filter` (ORM semantics abstracted). -/
def FilterListS.clean_query {α : Type} (restrict : Filt → α → Bool)
    (fl : FilterListS α) : QuerySet α :=
  (activeFilters fl.single fl.filters).foldl
    (fun q f => q.filterBy (restrict f)) ⟨fl.qs.all, fl.qs.all⟩

/-- `FilterList.object_list`: `self._qs & self.clean_query`. -/
def FilterListS.object_list {α : Type} [DecidableEq α]
    (restrict : Filt → α → Bool) (fl : FilterListS α) : QuerySet α :=
  QuerySet.qand fl.qs (fl.clean_query restrict)

lemma clean_query_independent_of_rows {α : Type} (restrict : Filt → α → Bool)
    (all rows rows2 : List α) (single : Bool) (filters : List Filt) :
    FilterListS.clean_query restrict ⟨⟨all, rows⟩, single, filters⟩
      = FilterListS.clean_query restrict ⟨⟨all, rows2⟩, single, filters⟩ := rfl

/-- C1. `object_list` equals the predefined queryset intersected with
`clean_query`, where `clean_query` applies every active filter in sequence
to a fresh query over the full table; moreover `clean_query` is computed
from the full table only, so intersecting it with any predefined
restriction of the same table yields that restriction's `object_list`. -/
theorem c1_object_list_eq_base_and_clean_query {α : Type} [DecidableEq α]
    (restrict : Filt → α → Bool) (all rows rows2 : List α)
    (single : Bool) (filters : List Filt) :
    FilterListS.object_list restrict ⟨⟨all, rows⟩, single, filters⟩
        = QuerySet.qand ⟨all, rows⟩
            ((activeFilters single filters).foldl
              (fun q f => q.filterBy (restrict f)) ⟨all, all⟩)
      ∧ FilterListS.object_list restrict ⟨⟨all, rows⟩, single, filters⟩
          = QuerySet.qand ⟨all, rows⟩
              (FilterListS.clean_query restrict ⟨⟨all, rows2⟩, single, filters⟩) := by
  refine ⟨rfl, ?_⟩
  show _ = QuerySet.qand _ (FilterListS.clean_query restrict ⟨⟨all, rows2⟩, single, filters⟩)
  rw [← clean_query_independent_of_rows restrict all rows rows2 single filters]
  rfl

lemma trig_identity (trig single t a : Bool) :
    ((trig || (single && (t && !trig))) || (single && a))
      = (trig || (single && (t || a))) := by
  cases trig <;> cases single <;> cases t <;> cases a <;> rfl

/-- Position-wise description of the generated filter list: the filter at
index `i` carries the facet's param and lookup, the request value of the
param, and is active iff that value is truthy and no trigger fired before
position `i`. -/
lemma generateFilters_getElem (get : String → Option String) (single : Bool) :
    ∀ (facets : List Facet) (trig : Bool) (i : Nat),
    (generateFilters get single facets trig)[i]? =
      facets[i]?.map (fun p =>
        ⟨p.param, p.lookup, get p.param,
         isTruthy (get p.param) &&
           !(trig || (single && (facets.take i).any
               (fun q => isTruthy (get q.param))))⟩) := by
  intro facets
  induction facets with
  | nil => intro trig i; rfl
  | cons p rest ih =>
    intro trig i
    cases i with
    | zero => simp [generateFilters]
    | succ i =>
      have hstep : (generateFilters get single (p :: rest) trig)[i + 1]?
          = (generateFilters get single rest
              (trig || (single && (isTruthy (get p.param) && !trig))))[i]? := by
        simp [generateFilters]
      rw [hstep, ih]
      rcases h : rest[i]? with _ | q
      · simp [h]
      · simp only [h, Option.map_some, List.getElem?_cons_succ, List.take_succ_cons,
          List.any_cons, Option.some.injEq, Filt.mk.injEq, true_and]
        rw [trig_identity]

lemma generateFilters_length (get : String → Option String) (single : Bool) :
    ∀ (facets : List Facet) (trig : Bool),
    (generateFilters get single facets trig).length = facets.length := by
  intro facets
  induction facets with
  | nil => intro trig; rfl
  | cons p rest ih => intro trig; simp [generateFilters, ih]

lemma activeFilters_single_length_le_one (fs : List Filt) :
    (activeFilters true fs).length ≤ 1 := by
  unfold activeFilters
  rcases h : fs.find? (fun f => f.active) with _ | f <;> simp [h]

/-- C2. With `single=True`, the `active` list has length at most one, and
the filter at position `i` is active exactly when its parameter has a
truthy value in the request and no earlier facet's parameter does: the
first facet (in declaration order) whose parameter is present wins and all
later filters are inactive even if their parameters are present. -/
theorem c2_single_mode_first_present_facet_wins
    (get : String → Option String) (facets : List Facet) :
    (activeFilters true (generateFilters get true facets false)).length ≤ 1
      ∧ ∀ i : Nat,
        ((generateFilters get true facets false)[i]?.map (fun f => f.active)) =
          (facets[i]?.map (fun p =>
            isTruthy (get p.param) &&
              !((facets.take i).any (fun q => isTruthy (get q.param))))) := by
  refine ⟨activeFilters_single_length_le_one _, fun i => ?_⟩
  rw [generateFilters_getElem]
  rcases h : facets[i]? with _ | p <;> simp [h]

lemma generateFilters_cons (get : String → Option String) (single : Bool)
    (p : Facet) (rest : List Facet) (trig : Bool) :
    generateFilters get single (p :: rest) trig =
      ⟨p.param, p.lookup, get p.param, isTruthy (get p.param) && !trig⟩ ::
        generateFilters get single rest
          (trig || (single && (isTruthy (get p.param) && !trig))) := by
  simp [generateFilters]

lemma activeFilters_cons_true (single : Bool) (f : Filt) (fs : List Filt)
    (h : f.active = true) :
    activeFilters single (f :: fs) =
      if single then [f] else f :: activeFilters single fs := by
  cases single <;>
    simp [activeFilters, List.find?_cons_of_pos, List.filter_cons_of_pos, h]

lemma activeFilters_cons_false (single : Bool) (f : Filt) (fs : List Filt)
    (h : f.active = false) :
    activeFilters single (f :: fs) = activeFilters single fs := by
  cases single <;>
    simp [activeFilters, List.find?_cons_of_neg, List.filter_cons_of_neg, h]

lemma mem_generateFilters (get : String → Option String) (single : Bool) :
    ∀ (facets : List Facet) (trig : Bool) (f : Filt),
    f ∈ generateFilters get single facets trig →
      f.value = get f.param ∧ (f.active = true → isTruthy (get f.param) = true) := by
  intro facets
  induction facets with
  | nil => intro trig f hf; simp [generateFilters] at hf
  | cons p rest ih =>
    intro trig f hf
    rw [generateFilters_cons] at hf
    rcases List.mem_cons.mp hf with h | h
    · subst h
      refine ⟨rfl, fun ha => ?_⟩
      rw [Bool.and_eq_true] at ha
      exact ha.1
    · exact ih _ f h

lemma mem_activeFilters (single : Bool) (fs : List Filt) (f : Filt)
    (h : f ∈ activeFilters single fs) : f ∈ fs ∧ f.active = true := by
  unfold activeFilters at h
  by_cases hs : single = true
  · rw [hs] at h
    simp only [if_true] at h
    rcases hfind : fs.find? (fun g => g.active) with _ | g
    · rw [hfind] at h; simp at h
    · rw [hfind] at h
      simp only [List.mem_singleton] at h
      subst h
      exact ⟨List.mem_of_find?_eq_some hfind, by
        have := List.find?_some hfind; simpa using this⟩
  · rw [Bool.not_eq_true] at hs
    rw [hs] at h
    simp only [Bool.false_eq_true, if_false, List.mem_filter] at h
    exact h

lemma mem_urlencodePairs (get : String → Option String) (single : Bool)
    (facets : List Facet) (trig : Bool) (pr : String × String)
    (h : pr ∈ urlencodePairs single (generateFilters get single facets trig)) :
    get pr.1 = some pr.2 ∧ isTruthy (get pr.1) = true := by
  unfold urlencodePairs at h
  rcases List.mem_map.mp h with ⟨f, hf, hpr⟩
  obtain ⟨hmem, hact⟩ := mem_activeFilters single _ f hf
  obtain ⟨hval, htr⟩ := mem_generateFilters get single facets trig f hmem
  have htruthy := htr hact
  rcases hv : get f.param with _ | s
  · rw [hv] at htruthy; simp [isTruthy] at htruthy
  · subst hpr
    rw [hv] at htruthy
    rw [hval, hv]
    exact ⟨rfl, htruthy⟩

lemma requestOfPairs_agree (get : String → Option String)
    (pairs : List (String × String))
    (hP : ∀ pr ∈ pairs, get pr.1 = some pr.2) (q : String)
    (ht : isTruthy (requestOfPairs pairs q) = true) :
    requestOfPairs pairs q = get q := by
  unfold requestOfPairs at ht ⊢
  rcases hlast : (pairs.filter (fun pr => pr.1 == q)).getLast? with _ | pr
  · rw [hlast] at ht; simp [isTruthy] at ht
  · rw [hlast]
    have hmem : pr ∈ pairs.filter (fun pr => pr.1 == q) := by
      obtain ⟨hne, heq⟩ := List.mem_getLast?_eq_getLast (l := _) (x := pr) hlast
      rw [heq]; exact List.getLast_mem hne
    obtain ⟨hpairs, hkey⟩ := List.mem_filter.mp hmem
    have hkey2 : pr.1 = q := by simpa using hkey
    rw [← hkey2, hP pr hpairs]
    rfl

lemma requestOfPairs_truthy (get : String → Option String)
    (pairs : List (String × String))
    (hP : ∀ pr ∈ pairs, get pr.1 = some pr.2 ∧ isTruthy (get pr.1) = true)
    (q : String) (hq : ∃ pr ∈ pairs, pr.1 = q) :
    isTruthy (requestOfPairs pairs q) = true := by
  obtain ⟨pr, hpr, hkey⟩ := hq
  have hne : pairs.filter (fun pr => pr.1 == q) ≠ [] := by
    intro hnil
    have : pr ∈ pairs.filter (fun pr => pr.1 == q) :=
      List.mem_filter.mpr ⟨hpr, by simp [hkey]⟩
    rw [hnil] at this
    simp at this
  unfold requestOfPairs
  rcases hlast : (pairs.filter (fun pr => pr.1 == q)).getLast? with _ | pr2
  · exact absurd (List.getLast?_eq_none_iff.mp hlast) hne
  · have hmem : pr2 ∈ pairs.filter (fun pr => pr.1 == q) := by
      obtain ⟨hne2, heq⟩ := List.mem_getLast?_eq_getLast (l := _) (x := pr2) hlast
      rw [heq]; exact List.getLast_mem hne2
    obtain ⟨hpairs2, hkey2⟩ := List.mem_filter.mp hmem
    obtain ⟨hval, htr⟩ := hP pr2 hpairs2
    rw [hval] at htr
    rw [hlast]
    exact htr

lemma roundtrip_aux (get get2 : String → Option String) (single : Bool)
    (hagree : ∀ q, isTruthy (get2 q) = true → get2 q = get q) :
    ∀ (facets : List Facet) (trig : Bool),
    (∀ f ∈ activeFilters single (generateFilters get single facets trig),
        isTruthy (get2 f.param) = true) →
    activeFilters single (generateFilters get2 single facets trig)
      = activeFilters single (generateFilters get single facets trig) := by
  intro facets
  induction facets with
  | nil => intro trig _; cases single <;> simp [generateFilters, activeFilters]
  | cons p rest ih =>
    intro trig hact
    by_cases ht2 : isTruthy (get2 p.param) = true
    · have heq : get2 p.param = get p.param := hagree _ ht2
      have ht : isTruthy (get p.param) = true := by rw [← heq]; exact ht2
      rw [generateFilters_cons, generateFilters_cons, heq, ht]
      cases trig with
      | true =>
        rw [activeFilters_cons_false single _ _ rfl,
          activeFilters_cons_false single _ _ rfl]
        apply ih
        intro f hf
        apply hact
        rw [generateFilters_cons, ht, activeFilters_cons_false single _ _ rfl]
        exact hf
      | false =>
        rw [activeFilters_cons_true single _ _ rfl,
          activeFilters_cons_true single _ _ rfl]
        cases single with
        | true => rfl
        | false =>
          have hact2 : ∀ f ∈ activeFilters false
              (generateFilters get false rest (false || (false && (true && !false)))),
              isTruthy (get2 f.param) = true := by
            intro f hf
            apply hact
            rw [generateFilters_cons, ht, activeFilters_cons_true false _ _ rfl]
            simp only [Bool.false_eq_true, if_false]
            exact List.mem_cons_of_mem _ hf
          simp only [Bool.false_eq_true, if_false]
          rw [ih _ hact2]
    · have ht2f : isTruthy (get2 p.param) = false := by
        cases h : isTruthy (get2 p.param)
        · rfl
        · exact absurd h ht2
      by_cases hold : (isTruthy (get p.param) && !trig) = true
      · exfalso
        apply ht2
        have hmemhead : (⟨p.param, p.lookup, get p.param,
            isTruthy (get p.param) && !trig⟩ : Filt) ∈
            activeFilters single (generateFilters get single (p :: rest) trig) := by
          rw [generateFilters_cons, activeFilters_cons_true single _ _ hold]
          cases single <;> simp
        exact hact _ hmemhead
      · have holdf : (isTruthy (get p.param) && !trig) = false := by
          cases h : (isTruthy (get p.param) && !trig)
          · rfl
          · exact absurd h hold
        rw [generateFilters_cons, generateFilters_cons, ht2f, holdf]
        simp only [Bool.false_and, Bool.and_false, Bool.or_false]
        rw [activeFilters_cons_false single _ _ rfl,
          activeFilters_cons_false single _ _ rfl]
        apply ih
        intro f hf
        apply hact
        rw [generateFilters_cons, holdf]
        simp only [Bool.and_false, Bool.or_false]
        rw [activeFilters_cons_false single _ _ rfl]
        exact hf

lemma generateFilters_map_param (get : String → Option String) (single : Bool) :
    ∀ (facets : List Facet) (trig : Bool),
    (generateFilters get single facets trig).map (fun f => f.param)
      = facets.map Facet.param := by
  intro facets
  induction facets with
  | nil => intro trig; rfl
  | cons p rest ih =>
    intro trig
    rw [generateFilters_cons]
    simp [ih]

lemma activeFilters_sublist (single : Bool) (fs : List Filt) :
    List.Sublist (activeFilters single fs) fs := by
  cases single with
  | false => exact List.filter_sublist fs
  | true =>
    unfold activeFilters
    simp only [if_true]
    rcases hfind : fs.find? (fun f => f.active) with _ | f
    · rw [hfind]; simp
    · rw [hfind]
      exact List.singleton_sublist.mpr (List.mem_of_find?_eq_some hfind)

/-- C7. The urlencode round-trip: rebuilding a request whose GET mapping is
exactly the (param, value) pairs encoded from the active filters, and
constructing a new FilterList over the same facets with the same single
flag, yields the same list of active filters; moreover the encoded
parameters form an in-order subsequence of the facet declaration order. -/
theorem c7_urlencode_roundtrip (get : String → Option String) (single : Bool)
    (facets : List Facet) :
    activeFilters single
        (generateFilters
          (requestOfPairs
            (urlencodePairs single (generateFilters get single facets false)))
          single facets false)
      = activeFilters single (generateFilters get single facets false)
    ∧ List.Sublist
        ((urlencodePairs single (generateFilters get single facets false)).map
          (fun pr => pr.1))
        (facets.map Facet.param) := by
  constructor
  · apply roundtrip_aux
    · intro q hq
      apply requestOfPairs_agree
      · intro pr hpr
        exact (mem_urlencodePairs get single facets false pr hpr).1
      · exact hq
    · intro f hf
      apply requestOfPairs_truthy
      · intro pr hpr
        exact mem_urlencodePairs get single facets false pr hpr
      · exact ⟨(f.param, f.value.getD "None"), List.mem_map.mpr ⟨f, hf, rfl⟩, rfl⟩
  · unfold urlencodePairs
    rw [show ((activeFilters single (generateFilters get single facets false)).map
          (fun f => (f.param, f.value.getD "None"))).map (fun pr => pr.1)
        = (activeFilters single (generateFilters get single facets false)).map
            (fun f => f.param) by rw [List.map_map]; rfl]
    rw [← generateFilters_map_param get single facets false]
    exact List.Sublist.map _ (activeFilters_sublist single _)

/-- Python `s.split(sep)` for the separator `__`, on the character-list
embedding: splits at non-overlapping occurrences, left to right. -/
def pySplitUU : List Char → List (List Char)
  | [] => [[]]
  | '_' :: '_' :: rest => [] :: pySplitUU rest
  | c :: rest =>
    match pySplitUU rest with
    | [] => [[c]]
    | seg :: segs => (c :: seg) :: segs

/-- Resolved field metadata, distinguishable per model (for example the
verbose name used for filter titles lives here). -/
structure FieldMeta where
  model : String
  name : PyStr
deriving DecidableEq, Repr

/-- A Django model with its `_meta.get_field` accessor. -/
structure ModelS where
  name : String
  get_field : PyStr → FieldMeta

/-- The process-wide `Filter._cached_fields` dictionary. -/
abbrev FieldCache := List (PyStr × FieldMeta)

/-- `Filter.resolve_field`: on a cache miss, resolve the first segment of
the lookup path against the queryset's model and memoize; on a hit, return
the cached entry.  The cache key is the lookup string alone. -/
def resolve_field (cache : FieldCache) (m : ModelS) (lookup : PyStr) :
    FieldMeta × FieldCache :=
  match cache.find? (fun e => e.1 == lookup) with
  | some e => (e.2, cache)
  | none =>
    let f := m.get_field ((pySplitUU lookup).headD lookup)
    (f, cache ++ [(lookup, f)])

/-- C4 (divergence witness). Two models both expose a field under the
lookup path `name`; resolving for model `A` first and then for model `B`
returns model `A`'s field metadata for model `B`, because the cache is
keyed by the lookup string alone rather than by (entity type, lookup). -/
theorem c4_cache_keyed_by_lookup_only_divergence :
    (resolve_field
        (resolve_field [] ⟨"A", fun fn => ⟨"A", fn⟩⟩ ("name".toList)).2
        ⟨"B", fun fn => ⟨"B", fn⟩⟩ ("name".toList)).1
      = ⟨"A", "name".toList⟩
    ∧ (⟨"A", "name".toList⟩ : FieldMeta) ≠ ⟨"B", "name".toList⟩ := by
  constructor
  · rfl
  · decide

/-- A Python value as it occurs in choice/filter comparisons. -/
inductive PyVal where
  | vint (n : Int)
  | vstr (s : PyStr)
  | vnone
deriving DecidableEq, Repr

/-- A Python exception class relevant to the comparison code. -/
inductive PyErr where
  | typeError
  | valueError
deriving DecidableEq, Repr

/-- Value of a plain decimal digit string, if all characters are digits. -/
def digitsVal (l : List Char) : Option Nat :=
  if l = [] then none
  else if l.all Char.isDigit then
    some (l.foldl (fun acc c => acc * 10 + (c.toNat - '0'.toNat)) 0)
  else none

/-- Python `int(s)` on a plain decimal string with optional sign;
a non-numeric string raises `ValueError`. -/
def pyIntOfStr (s : PyStr) : Option Int :=
  match s with
  | '-' :: rest => (digitsVal rest).map (fun n => -(n : Int))
  | '+' :: rest => (digitsVal rest).map (fun n => (n : Int))
  | _ => (digitsVal s).map (fun n => (n : Int))

/-- Python `str(v)`. -/
def pyStrOf : PyVal → PyStr
  | .vint n => (toString n).toList
  | .vstr s => s
  | .vnone => "None".toList

/-- `type(choiceValue)(filterValue)`: convert the filter's current value to
the type of the stored choice value.  `int(None)` raises `TypeError`,
`int` on a non-numeric string raises `ValueError`, `str` never fails,
`NoneType` takes no argument and raises `TypeError`. -/
def pyConvert : PyVal → PyVal → Except PyErr PyVal
  | .vint _, .vint m => .ok (.vint m)
  | .vint _, .vstr s =>
    match pyIntOfStr s with
    | some n => .ok (.vint n)
    | none => .error .valueError
  | .vint _, .vnone => .error .typeError
  | .vstr _, v => .ok (.vstr (pyStrOf v))
  | .vnone, _ => .error .typeError

/-- `FilterChoice.active`: compare the stored value with the converted
filter value.  The source's handler is `except TypeError as ValueError`,
which catches `TypeError` only (binding it to the name `ValueError`);
a `ValueError` raised by the conversion propagates. -/
def FilterChoice_active (choiceValue filterValue : PyVal) : Except PyErr Bool :=
  match pyConvert choiceValue filterValue with
  | .ok v => .ok (decide (choiceValue = v))
  | .error .typeError => .ok false
  | .error e => .error e

/-- C5 (divergence witness). For an integer choice value `5` and the
non-numeric filter value `"abc"`, the conversion raises `ValueError`,
which the `active` property does not swallow; a `TypeError` (filter value
`None`) is swallowed and yields inactive, and a numeric string converts
and compares equal. -/
theorem c5_value_error_propagates_divergence :
    FilterChoice_active (.vint 5) (.vstr ("abc".toList)) = .error .valueError
    ∧ FilterChoice_active (.vint 5) .vnone = .ok false
    ∧ FilterChoice_active (.vint 5) (.vstr ("5".toList)) = .ok true :=
  ⟨rfl, rfl, rfl⟩

/-- The concrete `Filter` subclasses involved in automatic selection. -/
inductive FilterKind where
  | base
  | relation
  | boolean
  | alphabetic
  | allValues
deriving DecidableEq, Repr

/-- The field metadata inspected during subtype dispatch: truthiness of
`field.rel` and whether the field is an instance of `BooleanField`. -/
structure FieldS where
  hasRel : Bool
  isBooleanField : Bool
deriving DecidableEq, Repr

/-- `suitable_for` of each class: `RelationFilter` accepts fields with a
truthy `rel`, `BooleanFilter` accepts boolean fields, and every other
class inherits the base implementation that accepts anything. -/
def suitable_for : FilterKind → FieldS → Bool
  | .relation, f => f.hasRel
  | .boolean, f => f.isBooleanField
  | _, _ => true

/-- `Filter._filter_specs` after the module-level `Filter.register` calls,
in registration order. -/
def filter_specs : List FilterKind := [.relation, .boolean, .allValues]

/-- `Filter.create`: an explicitly requested subclass is instantiated
directly; otherwise the first registered class whose `suitable_for`
accepts the resolved field is chosen. -/
def Filter_create (cls : FilterKind) (field : FieldS) : Option FilterKind :=
  if !(cls == .base) then some cls
  else filter_specs.find? (fun k => suitable_for k field)

/-- C6. Automatic selection picks the first registered subtype whose
suitability predicate accepts the field, in registration order: a field
with a truthy relation gets `RelationFilter`, otherwise a boolean field
gets `BooleanFilter`, and any other field falls through to the catch-all
`AllValuesFilter` registered last; an explicitly requested subtype is
always instantiated as requested. -/
theorem c6_create_first_registered_match (field : FieldS) :
    Filter_create .base field = filter_specs.find? (fun k => suitable_for k field)
    ∧ Filter_create .base field =
        some (if field.hasRel then .relation
          else if field.isBooleanField then .boolean else .allValues)
    ∧ Filter_create .relation field = some .relation
    ∧ Filter_create .boolean field = some .boolean
    ∧ Filter_create .alphabetic field = some .alphabetic
    ∧ Filter_create .allValues field = some .allValues := by
  rcases field with ⟨r, b⟩
  cases r <;> cases b <;> decide

/-- A positional argument of a wrapped view: either the framework request
object or anything else. -/
inductive PyArg where
  | request
  | plain (n : Nat)
deriving DecidableEq, Repr

/-- The return value of a wrapped view over an abstract value type `κ`:
a list/tuple, a dict, or any other value. -/
inductive ViewOutput (κ : Type) where
  | seq (elems : List κ)
  | mapping (ctx : κ)
  | plain (v : κ)
deriving DecidableEq, Repr

/-- Observable outcome of one invocation of the `render_to` wrapper. -/
inductive RenderOutcome (κ : Type) where
  | renderedSeq (tmpl : κ) (ctx : κ)
  | renderedDict (tmplName : String) (ctx : κ)
  | passthrough (v : κ)
  | valueError
  | typeError
  | indexError
deriving DecidableEq, Repr

/-- The `render_to` wrapper body: locate the request among the positional
arguments (raising `ValueError` if absent), call the view, then dispatch
on the result: a list/tuple renders element 1 as template with element 0
as context (an index error if shorter than two); a dict renders with the
configured template name or one derived from the function name (anonymous
functions without a template raise `TypeError`); anything else passes
through unchanged. -/
def render_to_wrapper {κ : Type} (template : Option String) (funcName : String)
    (args : List PyArg) (output : ViewOutput κ) : RenderOutcome κ :=
  if !(args.contains .request) then .valueError
  else
    match output with
    | .seq elems =>
      match elems with
      | e0 :: e1 :: _ => .renderedSeq e1 e0
      | _ => .indexError
    | .mapping ctx =>
      match template with
      | some t => .renderedDict t ctx
      | none =>
        if funcName == "<lambda>" then .typeError
        else .renderedDict (funcName ++ ".html") ctx
    | .plain v => .passthrough v

/-- C9. When the wrapped view returns a two-element sequence, the wrapper
performs exactly one rendering call with the second element as the
template and the first as the context; a value that is neither a sequence
nor a mapping passes through unchanged. -/
theorem c9_render_to_pair_and_passthrough {κ : Type}
    (template : Option String) (funcName : String) (args : List PyArg)
    (hreq : PyArg.request ∈ args) (c t v : κ) :
    render_to_wrapper template funcName args (ViewOutput.seq [c, t])
        = RenderOutcome.renderedSeq t c
    ∧ render_to_wrapper template funcName args (ViewOutput.plain v)
        = RenderOutcome.passthrough v := by
  constructor <;> simp [render_to_wrapper, hreq]

/-- C9 witness: a concrete invocation with the request present among the
arguments. -/
theorem c9_render_to_pair_and_passthrough_witness :
    PyArg.request ∈ [PyArg.plain 0, PyArg.request]
    ∧ (render_to_wrapper none "myview" [PyArg.plain 0, PyArg.request]
          (ViewOutput.seq [(10 : Nat), 20])
        = RenderOutcome.renderedSeq 20 10
      ∧ render_to_wrapper none "myview" [PyArg.plain 0, PyArg.request]
          (ViewOutput.plain (7 : Nat))
        = RenderOutcome.passthrough 7) :=
  ⟨by decide,
   c9_render_to_pair_and_passthrough none "myview" [PyArg.plain 0, PyArg.request]
     (by decide) 10 20 7⟩

/-- A candidate related object as iterated by
`RelationFilter.generate_choices`, after the ORM has restricted and
annotated it: primary key, attribute access, display string and the
annotated usage count. -/
structure RelObj where
  pk : Int
  attrs : PyStr → Int
  display : String
  items_count : Nat

/-- A choice yielded by the relation filter. -/
structure RelChoice where
  title : String
  value : Int
  items_count : Nat
deriving DecidableEq, Repr

/-- The per-candidate value computation of
`RelationFilter.generate_choices`: the primary key by default; when the
lookup contains a double underscore, unpacking the split into exactly two
parts; the unpacking raises a `ValueError` (re-raised with a message) when
the split has more than two parts. -/
def relationChoiceValue (lookup : PyStr) (c : RelObj) : Except String Int :=
  if (pySplitUU lookup).length ≥ 2 then
    match pySplitUU lookup with
    | [_, attr] => .ok (c.attrs attr)
    | _ => .error "Facet lookup must contain no more than two parts"
  else .ok c.pk

/-- `list(RelationFilter.generate_choices())`: yields one choice per
candidate; the first candidate whose value computation raises aborts the
enumeration with that error. -/
def RelationFilter_generate_choices (lookup : PyStr) :
    List RelObj → Except String (List RelChoice)
  | [] => .ok []
  | c :: rest =>
    match relationChoiceValue lookup c with
    | .error e => .error e
    | .ok v =>
      match RelationFilter_generate_choices lookup rest with
      | .error e => .error e
      | .ok cs => .ok (⟨c.display, v, c.items_count⟩ :: cs)

/-- C8. For a relation filter whose lookup splits into more than two
double-underscore-separated segments, enumerating the choices fails with a
value error as soon as there is at least one candidate to iterate. -/
theorem c8_malformed_relation_lookup_value_error (lookup : PyStr)
    (cands : List RelObj) (hlong : (pySplitUU lookup).length > 2)
    (hne : cands ≠ []) :
    ∃ msg, RelationFilter_generate_choices lookup cands = Except.error msg := by
  rcases cands with _ | ⟨c, rest⟩
  · exact absurd rfl hne
  · rcases hsplit : pySplitUU lookup with _ | ⟨a, _ | ⟨b, _ | ⟨d, tl⟩⟩⟩ <;>
      rw [hsplit] at hlong <;> simp at hlong
    refine ⟨"Facet lookup must contain no more than two parts", ?_⟩
    have hval : relationChoiceValue lookup c
        = .error "Facet lookup must contain no more than two parts" := by
      unfold relationChoiceValue
      rw [hsplit]
      simp
    simp [RelationFilter_generate_choices, hval]

/-- C8 witness: the lookup `a__b__c` has three segments and a single
candidate exists, so enumeration yields a value error. -/
theorem c8_malformed_relation_lookup_value_error_witness :
    (pySplitUU ("a__b__c".toList)).length > 2
    ∧ (([⟨1, fun _ => 0, "x", 2⟩] : List RelObj) ≠ [])
    ∧ ∃ msg, RelationFilter_generate_choices ("a__b__c".toList)
        [⟨1, fun _ => 0, "x", 2⟩] = Except.error msg :=
  ⟨by decide, List.cons_ne_nil _ _,
   c8_malformed_relation_lookup_value_error ("a__b__c".toList)
     [⟨1, fun _ => 0, "x", 2⟩] (by decide) (List.cons_ne_nil _ _)⟩

/-- Python `str()` of a boolean field value. -/
def pyStrBool (b : Bool) : String := if b then "True" else "False"

/-- A choice yielded by the boolean filter: display title (`yes`/`no`),
string value (`True`/`False`) and usage count. -/
structure BoolChoice where
  title : String
  value : String
  items_count : Nat
deriving DecidableEq, Repr

/-- `qs.values(lookup).distinct()` with the `items_count` annotation of
`Filter._annotate`: each distinct observed value with its multiplicity
(database enumeration order is unspecified; `List.dedup` fixes one). -/
def valuesDistinctCounts (vals : List Bool) : List (Bool × Nat) :=
  vals.dedup.map (fun v => (v, vals.count v))

/-- The optional `order_by(-items_count)` of `Filter._annotate`. -/
def annotateSort {β : Type} (sort_by_usage : Bool) (choices : List (β × Nat)) :
    List (β × Nat) :=
  if sort_by_usage then choices.insertionSort (fun a b => b.2 ≤ a.2) else choices

/-- The inner loop of `BooleanFilter.generate_choices` for one entry of
`bool_choices`: yield a choice for every distinct value whose string form
equals the target value. -/
def boolYieldFor (choices : List (Bool × Nat)) (val name : String) :
    List BoolChoice :=
  (choices.filter (fun c => pyStrBool c.1 == val)).map (fun c => ⟨name, val, c.2⟩)

/-- `BooleanFilter.generate_choices`: the outer loop runs over the fixed
tuple `(True, yes), (False, no)` in that order, both passes iterating the
same annotated distinct-value queryset. -/
def BooleanFilter_generate_choices (sort_by_usage : Bool) (vals : List Bool) :
    List BoolChoice :=
  boolYieldFor (annotateSort sort_by_usage (valuesDistinctCounts vals)) "True" "yes"
    ++ boolYieldFor (annotateSort sort_by_usage (valuesDistinctCounts vals)) "False" "no"

lemma pyStrBool_beq (x b : Bool) : (pyStrBool x == pyStrBool b) = (x == b) := by
  cases x <;> cases b <;> decide

lemma valuesDistinctCounts_filter (vals : List Bool) (b : Bool) :
    (valuesDistinctCounts vals).filter (fun c => pyStrBool c.1 == pyStrBool b)
      = if b ∈ vals then [(b, vals.count b)] else [] := by
  unfold valuesDistinctCounts
  rw [List.filter_map]
  have hcongr : vals.dedup.filter
        ((fun c : Bool × Nat => pyStrBool c.1 == pyStrBool b) ∘
          (fun v => (v, vals.count v)))
      = vals.dedup.filter (fun v => v == b) := by
    apply List.filter_congr
    intro x _
    exact pyStrBool_beq x b
  rw [hcongr, List.filter_beq, List.count_dedup]
  by_cases hb : b ∈ vals
  · simp [hb]
  · simp [hb]

lemma annotateSort_perm {β : Type} (sort_by_usage : Bool)
    (choices : List (β × Nat)) :
    List.Perm (annotateSort sort_by_usage choices) choices := by
  unfold annotateSort
  cases sort_by_usage with
  | true => simpa using List.perm_insertionSort (fun a b => b.2 ≤ a.2) choices
  | false => simp

lemma boolYieldFor_eq (sort_by_usage : Bool) (vals : List Bool) (b : Bool)
    (name : String) :
    boolYieldFor (annotateSort sort_by_usage (valuesDistinctCounts vals))
        (pyStrBool b) name
      = if b ∈ vals then [⟨name, pyStrBool b, vals.count b⟩] else [] := by
  unfold boolYieldFor
  have hperm : List.Perm
      ((annotateSort sort_by_usage (valuesDistinctCounts vals)).filter
        (fun c => pyStrBool c.1 == pyStrBool b))
      ((valuesDistinctCounts vals).filter
        (fun c => pyStrBool c.1 == pyStrBool b)) :=
    List.Perm.filter _ (annotateSort_perm sort_by_usage (valuesDistinctCounts vals))
  rw [valuesDistinctCounts_filter] at hperm
  by_cases hb : b ∈ vals
  · rw [if_pos hb] at hperm
    rw [List.perm_singleton.mp hperm, if_pos hb]
    rfl
  · rw [if_neg hb] at hperm
    rw [List.Perm.eq_nil hperm, if_neg hb]
    rfl

/-- C10. The boolean filter emits its choices in the fixed order
`yes`/`True` before `no`/`False` regardless of the sort-by-usage flag and
of the counts; a boolean value that does not occur among the distinct
observed values produces no choice at all. -/
theorem c10_boolean_choices_fixed_order (sort_by_usage : Bool)
    (vals : List Bool) :
    (BooleanFilter_generate_choices sort_by_usage vals).map
        (fun c => (c.title, c.value))
      = (if true ∈ vals then [("yes", "True")] else [])
        ++ (if false ∈ vals then [("no", "False")] else []) := by
  unfold BooleanFilter_generate_choices
  rw [show ("True" : String) = pyStrBool true from rfl,
    show ("False" : String) = pyStrBool false from rfl,
    boolYieldFor_eq, boolYieldFor_eq, List.map_append]
  by_cases h1 : true ∈ vals <;> by_cases h2 : false ∈ vals <;>
    simp [h1, h2, pyStrBool]

/-- `qs.values(lookup).distinct()` with the `items_count` annotation, for
a character-valued (string) field: each distinct observed value with its
multiplicity. -/
def strValuesDistinctCounts (vals : List PyStr) : List (PyStr × Nat) :=
  vals.dedup.map (fun v => (v, vals.count v))

/-- One step of the dictionary accumulation
`chars[char] = chars.setdefault(char, 0) + 1`. -/
def dictBump (m : List (Char × Nat)) (c : Char) : List (Char × Nat) :=
  if m.any (fun e => e.1 == c) then
    m.map (fun e => if e.1 == c then (e.1, e.2 + 1) else e)
  else m ++ [(c, 1)]

/-- Dictionary read `chars[char]` (0 when absent, unreachable here). -/
def lookupCount (m : List (Char × Nat)) (c : Char) : Nat :=
  match m.find? (fun e => e.1 == c) with
  | some e => e.2
  | none => 0

/-- The compression loop of `AlphabeticFilter.generate_choices`: for each
distinct value, take the lowercased first character and bump its tally by
one; an empty value raises an index error (`none`). -/
def alphaCharsAux : List (PyStr × Nat) → List (Char × Nat) → Option (List (Char × Nat))
  | [], m => some m
  | (v, _) :: rest, m =>
    match v.head? with
    | none => none
    | some ch => alphaCharsAux rest (dictBump m ch.toLower)

/-- A choice yielded by the alphabetic filter: uppercased character as
title, lowercased character as value, and the tally as count. -/
structure AlphaChoice where
  title : PyStr
  value : PyStr
  items_count : Nat
deriving DecidableEq, Repr

/-- `list(AlphabeticFilter.generate_choices())`: compress the annotated
distinct values into per-character tallies, then yield one choice per
character in sorted character order. -/
def AlphabeticFilter_generate_choices (sort_by_usage : Bool)
    (vals : List PyStr) : Option (List AlphaChoice) :=
  (alphaCharsAux (annotateSort sort_by_usage (strValuesDistinctCounts vals)) []).map
    (fun m => ((m.map (fun e => e.1)).insertionSort (fun a b => a ≤ b)).map
      (fun ch => ⟨[ch.toUpper], [ch], lookupCount m ch⟩))

/-- The row predicate of `AlphabeticFilter.filter`: the field value starts
with the lowercased chosen value or with the uppercased chosen value. -/
def AlphabeticFilter_filter_pred (value v : PyStr) : Bool :=
  List.isPrefixOf (value.map Char.toLower) v
    || List.isPrefixOf (value.map Char.toUpper) v

/-- `AlphabeticFilter.filter`: restrict the queryset by the prefix
predicate over the looked-up field value. -/
def AlphabeticFilter_filter {α : Type} (field : α → PyStr) (value : PyStr)
    (q : QuerySet α) : QuerySet α :=
  q.filterBy (fun r => AlphabeticFilter_filter_pred value (field r))

/-- C3 (divergence witness). Over the values `John, John, Mary` the code
emits the choice `j` with count 1 (one distinct value starting with `j`),
while the aggregated number of matching items for `j` is 2: the
compression loop adds one per distinct value and discards the computed
`items_count` annotation.  The filtering part of the claim does hold: the
chosen character `j` matches `John` and `joe` and not `Mary`. -/
theorem c3_alphabetic_count_divergence :
    AlphabeticFilter_generate_choices true
        ["John".toList, "John".toList, "Mary".toList]
      = some [⟨"J".toList, "j".toList, 1⟩, ⟨"M".toList, "m".toList, 1⟩]
    ∧ (["John".toList, "John".toList, "Mary".toList].filter
          (fun v => v.head?.map Char.toLower == some 'j')).length = 2
    ∧ (1 : Nat) ≠ 2
    ∧ AlphabeticFilter_filter_pred ("j".toList) ("John".toList) = true
    ∧ AlphabeticFilter_filter_pred ("j".toList) ("joe".toList) = true
    ∧ AlphabeticFilter_filter_pred ("j".toList) ("Mary".toList) = false := by
  refine ⟨?_, ?_, ?_, ?_, ?_, ?_⟩ <;> decide

end ViewShortcuts
